import Mathlib

namespace KustoVerify

/-!
# Verification of the Kusto ingestion client

A shallow embedding of `azure-kusto-ingest/azure/kusto/ingest/_kusto_ingest_client.py`
(class `KustoIngestClient`: `ingest_from_dataframe`, `ingest_from_files`,
`ingest_from_blobs`) together with models of the collaborators the claims need:
the wire encoding (JSON serialization, UTF-8, base64), the TTL resource cache,
and the effectful environment (resource authority, blob store, queue service,
random source, uuid source).

External effects are modelled by an explicit `Env` (oracle for fetches, upload
and publish outcomes, random draws and uuid draws) and a `World` trace of the
observable actions (uploads performed, messages published, temp files present,
fetch counts).  Python exceptions are modelled by `Except`: an error aborts the
remaining body and carries the world as it stood at the raise site.
-/

/-! ## Base64 (model of Python `base64.b64encode` / `b64decode`, standard alphabet) -/

def b64Alphabet : List Char :=
  "ABCDEFGHIJKLMNOPQRSTUVWXYZabcdefghijklmnopqrstuvwxyz0123456789+/".toList

def sextetChar (n : Nat) : Char := b64Alphabet.getD n 'A'

def sextetVal (c : Char) : Option Nat := b64Alphabet.indexOf? c

/-- Standard base64 of a byte list (bytes are `Nat`s below 256), with padding. -/
def b64encode : List Nat → List Char
  | [] => []
  | [b1] => [sextetChar (b1 / 4), sextetChar (b1 % 4 * 16), '=', '=']
  | [b1, b2] =>
      [sextetChar (b1 / 4), sextetChar (b1 % 4 * 16 + b2 / 16),
       sextetChar (b2 % 16 * 4), '=']
  | b1 :: b2 :: b3 :: rest =>
      sextetChar (b1 / 4) :: sextetChar (b1 % 4 * 16 + b2 / 16) ::
      sextetChar (b2 % 16 * 4 + b3 / 64) :: sextetChar (b3 % 64) ::
      b64encode rest

/-- Standard base64 decoding; `none` on malformed input. -/
def b64decode : List Char → Option (List Nat)
  | [] => some []
  | c1 :: c2 :: c3 :: c4 :: rest => do
      let s1 ← sextetVal c1
      let s2 ← sextetVal c2
      if c3 = '=' ∧ c4 = '=' then
        if rest = [] then some [s1 * 4 + s2 / 16] else none
      else if c4 = '=' then do
        let s3 ← sextetVal c3
        if rest = [] then some [s1 * 4 + s2 / 16, s2 % 16 * 16 + s3 / 4] else none
      else do
        let s3 ← sextetVal c3
        let s4 ← sextetVal c4
        let tail ← b64decode rest
        some ((s1 * 4 + s2 / 16) :: (s2 % 16 * 16 + s3 / 4) :: (s3 % 4 * 64 + s4) :: tail)
  | _ => none

/-! ## UTF-8 (model of Python `str.encode("utf-8")` / `bytes.decode("utf-8")`) -/

/-- UTF-8 bytes of one Unicode code point. -/
def utf8EncodeChar (n : Nat) : List Nat :=
  if n < 0x80 then [n]
  else if n < 0x800 then [0xC0 + n / 64, 0x80 + n % 64]
  else if n < 0x10000 then [0xE0 + n / 4096, 0x80 + n / 64 % 64, 0x80 + n % 64]
  else [0xF0 + n / 262144, 0x80 + n / 4096 % 64, 0x80 + n / 64 % 64, 0x80 + n % 64]

/-- UTF-8 encoding of a character sequence. -/
def utf8Encode (s : List Char) : List Nat :=
  s.flatMap (fun c => utf8EncodeChar c.toNat)

/-- Decode one UTF-8-encoded code point from the front of a byte list. -/
def utf8DecodeOne : List Nat → Option (Nat × List Nat)
  | [] => none
  | b :: rest =>
    if b < 0x80 then some (b, rest)
    else if b < 0xC0 then none
    else if b < 0xE0 then
      match rest with
      | b2 :: rest2 =>
        if 0x80 ≤ b2 ∧ b2 < 0xC0 then some ((b - 0xC0) * 64 + (b2 - 0x80), rest2)
        else none
      | [] => none
    else if b < 0xF0 then
      match rest with
      | b2 :: b3 :: rest3 =>
        if (0x80 ≤ b2 ∧ b2 < 0xC0) ∧ (0x80 ≤ b3 ∧ b3 < 0xC0) then
          some ((b - 0xE0) * 4096 + (b2 - 0x80) * 64 + (b3 - 0x80), rest3)
        else none
      | _ => none
    else if b < 0xF8 then
      match rest with
      | b2 :: b3 :: b4 :: rest4 =>
        if (0x80 ≤ b2 ∧ b2 < 0xC0) ∧ (0x80 ≤ b3 ∧ b3 < 0xC0) ∧ (0x80 ≤ b4 ∧ b4 < 0xC0) then
          some ((b - 0xF0) * 262144 + (b2 - 0x80) * 4096 + (b3 - 0x80) * 64 + (b4 - 0x80),
            rest4)
        else none
      | _ => none
    else none

/-- Fuel-indexed UTF-8 decoding loop. -/
def utf8DecodeAux : Nat → List Nat → Option (List Char)
  | _, [] => some []
  | 0, _ :: _ => none
  | fuel + 1, b :: rest =>
    match utf8DecodeOne (b :: rest) with
    | some (n, rest2) => (utf8DecodeAux fuel rest2).map (Char.ofNat n :: ·)
    | none => none

/-- UTF-8 decoding; `none` on malformed byte sequences. -/
def utf8Decode (l : List Nat) : Option (List Char) := utf8DecodeAux l.length l

/-! ## JSON text fragments

Serialization of the ingestion-descriptor JSON document (modelled from the
spec, §6: the Python `_ingestion_blob_info.py` that builds and
`json.dumps`-serializes the document is not part of the given source), and a
parser for the same grammar, used to state the round-trip property. -/

def escapeChar (c : Char) : List Char :=
  if c = '"' ∨ c = '\\' then ['\\', c] else [c]

def escapeStr (s : List Char) : List Char := s.flatMap escapeChar

/-- A JSON string literal: quote, escaped body, quote. -/
def quoteStr (s : String) : List Char := '"' :: (escapeStr s.toList ++ ['"'])

def digitChar (d : Nat) : Char := Char.ofNat (48 + d)

def digitVal (c : Char) : Nat := c.toNat - 48

def isDigitCh (c : Char) : Bool := decide (48 ≤ c.toNat) && decide (c.toNat ≤ 57)

/-- Decimal digit accumulator (fuel-based so that it kernel-reduces). -/
def natCharsAux : Nat → Nat → List Char → List Char
  | 0, _, acc => acc
  | fuel + 1, n, acc =>
    if n = 0 then acc
    else natCharsAux fuel (n / 10) (digitChar (n % 10) :: acc)

/-- Decimal digits of a natural number, most significant first. -/
def natChars (n : Nat) : List Char :=
  if n = 0 then ['0'] else natCharsAux n n []

def boolChars (b : Bool) : List Char :=
  if b then "true".toList else "false".toList

/-- Consume an expected literal prefix. -/
def expectLit : List Char → List Char → Option (List Char)
  | [], l => some l
  | c :: cs, l =>
    match l with
    | c2 :: l2 => if c2 = c then expectLit cs l2 else none
    | [] => none

/-- Read an escaped string body up to the closing quote; the `Bool` records a
pending backslash. -/
def readStrAux : Bool → List Char → List Char → Option (List Char × List Char)
  | _, _, [] => none
  | true, acc, c :: rest => readStrAux false (c :: acc) rest
  | false, acc, c :: rest =>
    if c = '"' then some (acc.reverse, rest)
    else if c = '\\' then readStrAux true acc rest
    else readStrAux false (c :: acc) rest

/-- Read a JSON string literal. -/
def readQuoted (l : List Char) : Option (String × List Char) :=
  match l with
  | '"' :: rest => (readStrAux false [] rest).map (fun p => (String.mk p.1, p.2))
  | _ => none

/-- Read a decimal natural number (at least one digit). -/
def readNat (l : List Char) : Option (Nat × List Char) :=
  let ds := l.takeWhile isDigitCh
  if ds.isEmpty then none
  else some (Nat.ofDigits 10 ((ds.map digitVal).reverse), l.dropWhile isDigitCh)

/-- Read a JSON boolean literal. -/
def readBool (l : List Char) : Option (Bool × List Char) :=
  match expectLit ("true".toList) l with
  | some rest => some (true, rest)
  | none =>
    match expectLit ("false".toList) l with
    | some rest => some (false, rest)
    | none => none

/-! ### The AdditionalProperties object -/

def pairChars (p : String × String) : List Char :=
  quoteStr p.1 ++ ':' :: quoteStr p.2

def pairsChars : List (String × String) → List Char
  | [] => []
  | [p] => pairChars p
  | p :: q :: rest => pairChars p ++ ',' :: pairsChars (q :: rest)

/-- A JSON object of string keys and string values. -/
def objChars (ps : List (String × String)) : List Char :=
  '\x7b' :: (pairsChars ps ++ ['\x7d'])

/-- Read the pairs of a JSON object after the opening brace (at least one pair). -/
def readPairsAux : Nat → List Char → Option (List (String × String) × List Char)
  | 0, _ => none
  | fuel + 1, l =>
    match readQuoted l with
    | none => none
    | some (k, r1) =>
      match r1 with
      | ':' :: r2 =>
        match readQuoted r2 with
        | none => none
        | some (v, r3) =>
          match r3 with
          | ',' :: r4 => (readPairsAux fuel r4).map (fun p => ((k, v) :: p.1, p.2))
          | '\x7d' :: r4 => some ([(k, v)], r4)
          | _ => none
      | _ => none

/-- Read the body of a JSON object after the opening brace. -/
def readObjBody (rest : List Char) : Option (List (String × String) × List Char) :=
  match rest with
  | '\x7d' :: rest2 => some ([], rest2)
  | _ => readPairsAux rest.length rest

/-- Read a JSON object of string keys and string values. -/
def readObj : List Char → Option (List (String × String) × List Char)
  | '\x7b' :: rest => readObjBody rest
  | _ => none

/-! ## The ingestion descriptor document

`BlobDescriptor` and `IngestionProperties` follow `_descriptors.py` usage in the
client and spec §3.  `IngestionBlobInfo` is modelled from the spec (§6 queue
message payload table): `_ingestion_blob_info.py` is not among the given
sources. -/

structure BlobDescriptor where
  url : String
  size : Nat
deriving DecidableEq, Repr

structure IngestionProperties where
  database : String
  table : String
  retainBlobOnSuccess : Bool
  flushImmediately : Bool
  ignoreSizeLimit : Bool
  additionalProperties : List (String × String)
deriving DecidableEq, Repr

/-- Modelled from the spec: the queue-message JSON document of §6
(`_ingestion_blob_info.py` is missing from the sources); field set and order
follow the spec table. -/
structure IngestionBlobInfo where
  blobPath : String
  rawDataSize : Nat
  databaseName : String
  tableName : String
  retainBlobOnSuccess : Bool
  flushImmediately : Bool
  ignoreSizeLimit : Bool
  additionalProperties : List (String × String)
  authorizationContext : String
  msgId : String
deriving DecidableEq, Repr

/-- Build the descriptor document for one blob: `_IngestionBlobInfo(blob,
ingestion_properties, auth_context)` plus the fresh message `Id`. -/
def makeIngestionBlobInfo (blob : BlobDescriptor) (props : IngestionProperties)
    (auth : String) (ident : String) : IngestionBlobInfo :=
  ⟨blob.url, blob.size, props.database, props.table, props.retainBlobOnSuccess,
    props.flushImmediately, props.ignoreSizeLimit, props.additionalProperties,
    auth, ident⟩

def litBlobPath : List Char := "\x7b\"BlobPath\":".toList

def litRawDataSize : List Char := ",\"RawDataSize\":".toList

def litDatabaseName : List Char := ",\"DatabaseName\":".toList

def litTableName : List Char := ",\"TableName\":".toList

def litRetain : List Char := ",\"RetainBlobOnSuccess\":".toList

def litFlush : List Char := ",\"FlushImmediately\":".toList

def litIgnore : List Char := ",\"IgnoreSizeLimit\":".toList

def litAdditional : List Char := ",\"AdditionalProperties\":".toList

def litAuthContext : List Char := ",\"AuthorizationContext\":".toList

def litId : List Char := ",\"Id\":".toList

/-- JSON serialization of the descriptor document (`to_json` then the textual
form handed to `.encode("utf-8")`). -/
def serializeBlobInfo (d : IngestionBlobInfo) : List Char :=
  litBlobPath ++ quoteStr d.blobPath ++
  litRawDataSize ++ natChars d.rawDataSize ++
  litDatabaseName ++ quoteStr d.databaseName ++
  litTableName ++ quoteStr d.tableName ++
  litRetain ++ boolChars d.retainBlobOnSuccess ++
  litFlush ++ boolChars d.flushImmediately ++
  litIgnore ++ boolChars d.ignoreSizeLimit ++
  litAdditional ++ objChars d.additionalProperties ++
  litAuthContext ++ quoteStr d.authorizationContext ++
  litId ++ quoteStr d.msgId ++ ['\x7d']

/-- Parse a string-valued field: its literal label, then the quoted value. -/
def parseStrField (lit l : List Char) : Option (String × List Char) :=
  (expectLit lit l).bind readQuoted

/-- Parse a number-valued field: its literal label, then the decimal value. -/
def parseNatField (lit l : List Char) : Option (Nat × List Char) :=
  (expectLit lit l).bind readNat

/-- Parse a boolean-valued field: its literal label, then `true`/`false`. -/
def parseCond (lit l : List Char) : Option (Bool × List Char) :=
  (expectLit lit l).bind readBool

/-- Parse an object-valued field: its literal label, then the object. -/
def parseObjField (lit l : List Char) : Option (List (String × String) × List Char) :=
  (expectLit lit l).bind readObj

/-- JSON parse of a serialized descriptor document. -/
def parseBlobInfo (l : List Char) : Option IngestionBlobInfo :=
  (parseStrField litBlobPath l).bind fun p1 =>
  (parseNatField litRawDataSize p1.2).bind fun p2 =>
  (parseStrField litDatabaseName p2.2).bind fun p3 =>
  (parseStrField litTableName p3.2).bind fun p4 =>
  (parseCond litRetain p4.2).bind fun p5 =>
  (parseCond litFlush p5.2).bind fun p6 =>
  (parseCond litIgnore p6.2).bind fun p7 =>
  (parseObjField litAdditional p7.2).bind fun p8 =>
  (parseStrField litAuthContext p8.2).bind fun p9 =>
  (parseStrField litId p9.2).bind fun p10 =>
  match p10.2 with
  | ['\x7d'] => some ⟨p1.1, p2.1, p3.1, p4.1, p5.1, p6.1, p7.1, p8.1, p9.1, p10.1⟩
  | _ => none

/-- Lines 152-155 of the client: `base64.b64encode(json.encode("utf-8")).decode("utf-8")`. -/
def encodeMessage (d : IngestionBlobInfo) : List Char :=
  b64encode (utf8Encode (serializeBlobInfo d))

/-- The decode chain of the consumer: base64-decode, UTF-8 decode, JSON parse. -/
def decodeMessage (l : List Char) : Option IngestionBlobInfo :=
  match b64decode l with
  | none => none
  | some bytes =>
    match utf8Decode bytes with
    | none => none
    | some chars => parseBlobInfo chars

/-! ## The client embedding

`KustoIngestClient.ingest_from_dataframe` / `ingest_from_files` /
`ingest_from_blobs`, with external effects supplied by an `Env` oracle and the
observable trace kept in a `World`. -/

/-- A storage resource handed out by the resource manager (container or queue):
`storage_account_name`, `object_name`, `sas`. -/
structure StorageResource where
  storage_account_name : String
  object_name : String
  sas : String
deriving DecidableEq, Repr

/-- The `FileDescriptor` surface used by the client: `stream_name`, `size`. -/
structure FileDescriptor where
  stream_name : String
  size : Nat
deriving DecidableEq, Repr

/-- An input to `ingest_from_files`: a path or an already-built descriptor
(the `isinstance(file, FileDescriptor)` branch). -/
inductive FileSource where
  | path (p : String)
  | descriptor (fd : FileDescriptor)
deriving DecidableEq, Repr

structure UploadRecord where
  account : String
  container : String
  blobName : String
deriving DecidableEq, Repr

structure MessageRecord where
  account : String
  queue : String
  content : List Char
deriving DecidableEq, Repr

/-- Trace of the observable effects of a run. -/
structure World where
  uploads : List UploadRecord
  messages : List MessageRecord
  tempFiles : List String
  rngUsed : Nat
  uuidUsed : Nat
  authCalls : Nat
  containerFetches : Nat
  queueFetches : Nat
deriving DecidableEq, Repr

def World.initial : World := ⟨[], [], [], 0, 0, 0, 0, 0⟩

/-- Environment oracle: resource-authority answers, upload/publish outcomes,
the random stream consumed by `random.choice`, the uuid stream, file sizes and
process facts for the dataframe temp file. -/
structure Env where
  containersResult : Option (List StorageResource)
  queuesResult : Option (List StorageResource)
  authResults : Nat → Option String
  uploadOk : Nat → Bool
  publishOk : Nat → Bool
  randDraw : Nat → Nat
  uuidDraw : Nat → String
  fileSize : String → Nat
  timestamp : Nat
  pid : Nat
  tempDir : String

inductive IngestError where
  | resourceUnavailable
  | uploadFailed
  | publishFailed
  | emptyPool
deriving DecidableEq, Repr

/-- Result of a client call: normal return, or a propagated Python exception,
each carrying the world as it stood. -/
inductive RunResult where
  | ok (w : World)
  | err (e : IngestError) (w : World)
deriving DecidableEq, Repr

def emptyStr : String := ""

def noResource : StorageResource := ⟨emptyStr, emptyStr, emptyStr⟩

def noMessage : MessageRecord := ⟨emptyStr, emptyStr, []⟩

def noUpload : UploadRecord := ⟨emptyStr, emptyStr, emptyStr⟩

def noBlob : BlobDescriptor := ⟨emptyStr, 0⟩

/-- Model of `random.choice(pool)` at draw index `t`: uniform over the pool, one fresh
draw per call. -/
def randomChoice (env : Env) (t : Nat) (pool : List StorageResource) : StorageResource :=
  pool.getD (env.randDraw t % pool.length) noResource

/-- The per-blob loop body of `ingest_from_blobs` (lines 141-156). -/
def ingestBlobsLoop (env : Env) (props : IngestionProperties)
    (queues : List StorageResource) : List BlobDescriptor → World → RunResult
  | [], w => .ok w
  | blob :: rest, w =>
    if queues.length = 0 then .err .emptyPool w
    else
      let q := randomChoice env w.rngUsed queues
      let w1 := { w with rngUsed := w.rngUsed + 1 }
      match env.authResults w1.authCalls with
      | none => .err .resourceUnavailable { w1 with authCalls := w1.authCalls + 1 }
      | some auth =>
        let w2 := { w1 with authCalls := w1.authCalls + 1 }
        let ident := env.uuidDraw w2.uuidUsed
        let w3 := { w2 with uuidUsed := w2.uuidUsed + 1 }
        let encoded := encodeMessage (makeIngestionBlobInfo blob props auth ident)
        if env.publishOk w3.messages.length then
          ingestBlobsLoop env props queues rest
            { w3 with messages :=
                w3.messages ++ [⟨q.storage_account_name, q.object_name, encoded⟩] }
        else .err .publishFailed w3

/-- Model of `ingest_from_blobs`: fetch the queue pool, then one message per blob. -/
def ingest_from_blobs (env : Env) (blobs : List BlobDescriptor)
    (props : IngestionProperties) (w : World) : RunResult :=
  match env.queuesResult with
  | none => .err .resourceUnavailable { w with queueFetches := w.queueFetches + 1 }
  | some queues =>
      ingestBlobsLoop env props queues blobs { w with queueFetches := w.queueFetches + 1 }

/-- Construction `FileDescriptor(file)` for a plain path input. -/
def fileDescriptorOfPath (env : Env) (p : String) : FileDescriptor :=
  ⟨p, env.fileSize p⟩

def sourceDescriptor (env : Env) : FileSource → FileDescriptor
  | .path p => fileDescriptorOfPath env p
  | .descriptor fd => fd

/-- Line 101-106: `"{db}__{table}__{guid}__{file}"`. -/
def blobNameFor (props : IngestionProperties) (uuid : String) (fileName : String) : String :=
  props.database ++ "__" ++ props.table ++ "__" ++ uuid ++ "__" ++ fileName

/-- Model of `make_blob_url(container, blob_name, sas_token=...)`. -/
def makeBlobUrl (account container blob sas : String) : String :=
  "https://" ++ account ++ ".blob.core.windows.net/" ++ container ++ "/" ++ blob ++ "?" ++ sas

/-- Result of the staging loop of `ingest_from_files`: the accumulated blob
descriptors, or the propagated upload exception. -/
inductive StageResult where
  | ok (blobs : List BlobDescriptor) (w : World)
  | err (e : IngestError) (w : World)
deriving DecidableEq, Repr

/-- The per-file loop of `ingest_from_files` (lines 94-124). -/
def stageFilesLoop (env : Env) (props : IngestionProperties)
    (containers : List StorageResource) :
    List FileSource → List BlobDescriptor → World → StageResult
  | [], acc, w => .ok acc w
  | f :: rest, acc, w =>
    let fd := sourceDescriptor env f
    let blobName := blobNameFor props (env.uuidDraw w.uuidUsed) fd.stream_name
    let w1 := { w with uuidUsed := w.uuidUsed + 1 }
    if containers.length = 0 then .err .emptyPool w1
    else
      let c := randomChoice env w1.rngUsed containers
      let w2 := { w1 with rngUsed := w1.rngUsed + 1 }
      if env.uploadOk w2.uploads.length then
        let w3 := { w2 with uploads :=
            w2.uploads ++ [⟨c.storage_account_name, c.object_name, blobName⟩] }
        let url := makeBlobUrl c.storage_account_name c.object_name blobName c.sas
        stageFilesLoop env props containers rest (acc ++ [⟨url, fd.size⟩]) w3
      else .err .uploadFailed w2

/-- Model of `ingest_from_files`: fetch containers, stage every file, then delegate to
`ingest_from_blobs`. -/
def ingest_from_files (env : Env) (files : List FileSource)
    (props : IngestionProperties) (w : World) : RunResult :=
  match env.containersResult with
  | none => .err .resourceUnavailable { w with containerFetches := w.containerFetches + 1 }
  | some containers =>
    match stageFilesLoop env props containers files []
        { w with containerFetches := w.containerFetches + 1 } with
    | .ok blobs w2 => ingest_from_blobs env blobs props w2
    | .err e w2 => .err e w2

def natString (n : Nat) : String := String.mk (natChars n)

/-- The temp file name `'df_\x7btimestamp\x7d_\x7bpid\x7d.csv.gz'`. -/
def dfFileName (env : Env) : String :=
  "df_" ++ natString env.timestamp ++ "_" ++ natString env.pid ++ ".csv.gz"

def dfTempPath (env : Env) : String := env.tempDir ++ "/" ++ dfFileName env

/-- Model of `ingest_from_dataframe` (lines 33-81): write the temp artifact, stage it,
delegate to the blob path, and clean up only after a normal return. -/
def ingest_from_dataframe (env : Env) (props : IngestionProperties) (w : World) : RunResult :=
  let file_name := dfFileName env
  let temp_file_path := dfTempPath env
  let w0 := { w with tempFiles := w.tempFiles ++ [temp_file_path] }
  let fd := fileDescriptorOfPath env temp_file_path
  let blob_name := blobNameFor props (env.uuidDraw w0.uuidUsed) file_name
  let w1 := { w0 with uuidUsed := w0.uuidUsed + 1 }
  match env.containersResult with
  | none => .err .resourceUnavailable { w1 with containerFetches := w1.containerFetches + 1 }
  | some containers =>
    let w2 := { w1 with containerFetches := w1.containerFetches + 1 }
    if containers.length = 0 then .err .emptyPool w2
    else
      let c := randomChoice env w2.rngUsed containers
      let w3 := { w2 with rngUsed := w2.rngUsed + 1 }
      if env.uploadOk w3.uploads.length then
        let w4 := { w3 with uploads :=
            w3.uploads ++ [⟨c.storage_account_name, c.object_name, blob_name⟩] }
        let url := makeBlobUrl c.storage_account_name c.object_name blob_name c.sas
        match ingest_from_blobs env [⟨url, fd.size⟩] props w4 with
        | .ok w5 => .ok { w5 with tempFiles := w5.tempFiles.filter (· != temp_file_path) }
        | .err e w5 => .err e w5
      else .err .uploadFailed w3

/-! ## Run specifications -/

/-- The messages `ingestBlobsLoop` publishes on a successful run: one per blob,
with the queue chosen by that blob's own random draw and the authorization
context fetched at that blob's own call index. -/
def msgSpec (env : Env) (props : IngestionProperties) (queues : List StorageResource) :
    List BlobDescriptor → Nat → Nat → Nat → List MessageRecord
  | [], _, _, _ => []
  | blob :: rest, rng, auth, uuid =>
      ⟨(randomChoice env rng queues).storage_account_name,
       (randomChoice env rng queues).object_name,
       encodeMessage (makeIngestionBlobInfo blob props
         ((env.authResults auth).getD emptyStr) (env.uuidDraw uuid))⟩
      :: msgSpec env props queues rest (rng + 1) (auth + 1) (uuid + 1)

def RunResult.world : RunResult → World
  | .ok w => w
  | .err _ w => w

def RunResult.isOk : RunResult → Bool
  | .ok _ => true
  | .err _ _ => false

/-- The upload records the staging loop produces on a successful run: one per
file, with the container chosen by that file's own random draw and the blob
name built from that file's own uuid draw. -/
def uploadSpec (env : Env) (props : IngestionProperties)
    (containers : List StorageResource) : List FileSource → Nat → Nat → List UploadRecord
  | [], _, _ => []
  | f :: rest, uuid, rng =>
      ⟨(randomChoice env rng containers).storage_account_name,
       (randomChoice env rng containers).object_name,
       blobNameFor props (env.uuidDraw uuid) (sourceDescriptor env f).stream_name⟩
      :: uploadSpec env props containers rest (uuid + 1) (rng + 1)

/-- The blob descriptors the staging loop accumulates on a successful run. -/
def stagedBlobSpec (env : Env) (props : IngestionProperties)
    (containers : List StorageResource) : List FileSource → Nat → Nat → List BlobDescriptor
  | [], _, _ => []
  | f :: rest, uuid, rng =>
      ⟨makeBlobUrl (randomChoice env rng containers).storage_account_name
          (randomChoice env rng containers).object_name
          (blobNameFor props (env.uuidDraw uuid) (sourceDescriptor env f).stream_name)
          (randomChoice env rng containers).sas,
        (sourceDescriptor env f).size⟩
      :: stagedBlobSpec env props containers rest (uuid + 1) (rng + 1)

/-! ## Claim theorems -/

/-! ## Concrete fixtures for witnesses and counterexamples -/

def contA : StorageResource := ⟨"acct1", "cont1", "sasC1"⟩

def contB : StorageResource := ⟨"acct2", "cont2", "sasC2"⟩

def quA : StorageResource := ⟨"qacct1", "queue1", "sasQ1"⟩

def quB : StorageResource := ⟨"qacct2", "queue2", "sasQ2"⟩

/-- An environment in which every external operation succeeds. -/
def envOk : Env :=
  ⟨some [contA, contB], some [quA, quB],
   fun n => some (String.mk (List.replicate (n + 1) 'a')),
   fun _ => true, fun _ => true,
   fun n => n, fun n => String.mk (List.replicate (n + 1) 'u'),
   fun _ => 7, 5, 9, "/tmp"⟩

def propsX : IngestionProperties := ⟨"db1", "tbl1", true, false, false, [("format", "csv")]⟩

def blobsX : List BlobDescriptor := [⟨"https://e/b0", 10⟩, ⟨"https://e/b1", 20⟩]

def filesX : List FileSource := [.path "a.csv", .descriptor ⟨"b.csv", 3⟩]

/-- An environment whose container fetch fails. -/
def envNoCont : Env := { envOk with containersResult := none }

/-! ## C5: the temp artifact on failure paths -/

/-- C5 counterexample: with a failing queue publish, `ingest_from_dataframe`
raises and the temp artifact is left behind — cleanup is not on the failure
path. -/
def envPubFail : Env := { envOk with publishOk := fun _ => false }

/-! ## C8: first-failure abort semantics -/

def RunResult.errOf : RunResult → Option IngestError
  | .ok _ => none
  | .err e _ => some e

def StageResult.errOf : StageResult → Option IngestError
  | .ok _ _ => none
  | .err e _ => some e

def StageResult.world : StageResult → World
  | .ok _ w => w
  | .err _ w => w

/-- An environment in which the first upload succeeds and every later upload
fails. -/
def envUpFail : Env := { envOk with uploadOk := fun n => n == 0 }

/-! ## C3: the TTL resource cache

Modelled from the spec (§4.2): `_resource_manager.py` is not among the given
sources.  A cached resource kind holds the time it was last fetched; a call at
time `now` issues a remote fetch exactly when the cache is empty or its age
exceeds the TTL, and then resets the age. -/

/-- One `getContainers()`-style access at time `now`: returns whether a remote
fetch was issued, and the new cache state (the `fetchedAt` timestamp). -/
def cacheStep (ttl now : Nat) : Option Nat → Bool × Option Nat
  | none => (true, some now)
  | some t => if ttl < now - t then (true, some now) else (false, some t)

/-- Run a sequence of accesses at the given times; count the remote fetches. -/
def runCacheCalls (ttl : Nat) : List Nat → Option Nat → Nat × Option Nat
  | [], st => (0, st)
  | t :: rest, st =>
      ((if (cacheStep ttl t st).1 then 1 else 0)
          + (runCacheCalls ttl rest (cacheStep ttl t st).2).1,
       (runCacheCalls ttl rest (cacheStep ttl t st).2).2)

theorem sextetVal_sextetChar : ∀ n, n < 64 → sextetVal (sextetChar n) = some n := by
  decide

theorem sextetChar_ne_eq : ∀ n, n < 64 → sextetChar n ≠ '=' := by decide

theorem b64decode_b64encode (bs : List Nat) (h : ∀ b ∈ bs, b < 256) :
    b64decode (b64encode bs) = some bs := by
  induction bs using b64encode.induct with
  | case1 => rfl
  | case2 b1 =>
      have hb1 : b1 < 256 := h b1 (by simp)
      rw [b64encode, b64decode]
      rw [sextetVal_sextetChar _ (by omega), sextetVal_sextetChar _ (by omega)]
      simp only [Option.bind_eq_bind, Option.some_bind, if_true, and_self, ite_true]
      congr 2
      omega
  | case3 b1 b2 =>
      have hb1 : b1 < 256 := h b1 (by simp)
      have hb2 : b2 < 256 := h b2 (by simp)
      rw [b64encode, b64decode]
      rw [sextetVal_sextetChar _ (by omega), sextetVal_sextetChar _ (by omega),
        sextetVal_sextetChar _ (by omega)]
      simp only [Option.bind_eq_bind, Option.some_bind]
      rw [if_neg (by rintro ⟨h3, -⟩; exact sextetChar_ne_eq _ (by omega) h3)]
      simp only [if_true, ite_true]
      congr 3
      · omega
      · omega
  | case4 b1 b2 b3 rest ih =>
      have hb1 : b1 < 256 := h b1 (by simp)
      have hb2 : b2 < 256 := h b2 (by simp)
      have hb3 : b3 < 256 := h b3 (by simp)
      have hrest : ∀ b ∈ rest, b < 256 := fun b hb => h b (by simp [hb])
      rw [b64encode, b64decode]
      rw [sextetVal_sextetChar _ (by omega), sextetVal_sextetChar _ (by omega),
        sextetVal_sextetChar _ (by omega), sextetVal_sextetChar _ (by omega)]
      simp only [Option.bind_eq_bind, Option.some_bind]
      rw [if_neg (by rintro ⟨h3, -⟩; exact sextetChar_ne_eq _ (by omega) h3),
        if_neg (sextetChar_ne_eq _ (by omega)), ih hrest]
      simp only [Option.some_bind]
      congr 4
      · omega
      · omega
      · omega

theorem char_toNat_lt (c : Char) : c.toNat < 0x110000 := by
  rcases c.valid with h | ⟨h1, h2⟩
  · exact lt_trans h (by norm_num)
  · exact h2

theorem utf8EncodeChar_bytes_lt (c : Char) : ∀ b ∈ utf8EncodeChar c.toNat, b < 256 := by
  have hval := char_toNat_lt c
  intro b hb
  rw [utf8EncodeChar] at hb
  split_ifs at hb with h1 h2 h3 <;> simp at hb <;> omega

theorem utf8DecodeOne_encodeChar (c : Char) (rest : List Nat) :
    utf8DecodeOne (utf8EncodeChar c.toNat ++ rest) = some (c.toNat, rest) := by
  have hval := char_toNat_lt c
  rw [utf8EncodeChar]
  by_cases h1 : c.toNat < 0x80
  · rw [if_pos h1]
    simp only [List.cons_append, List.nil_append, utf8DecodeOne, if_pos h1]
  · rw [if_neg h1]
    by_cases h2 : c.toNat < 0x800
    · rw [if_pos h2]
      simp only [List.cons_append, List.nil_append, utf8DecodeOne]
      rw [if_neg (by omega), if_neg (by omega), if_pos (by omega),
        if_pos (by constructor <;> omega)]
      have harg : (0xC0 + c.toNat / 64 - 0xC0) * 64 + (0x80 + c.toNat % 64 - 0x80)
          = c.toNat := by omega
      rw [harg]
    · rw [if_neg h2]
      by_cases h3 : c.toNat < 0x10000
      · rw [if_pos h3]
        simp only [List.cons_append, List.nil_append, utf8DecodeOne]
        rw [if_neg (by omega), if_neg (by omega), if_neg (by omega), if_pos (by omega),
          if_pos (by exact ⟨by omega, by omega⟩)]
        have harg : (0xE0 + c.toNat / 4096 - 0xE0) * 4096 +
            (0x80 + c.toNat / 64 % 64 - 0x80) * 64 + (0x80 + c.toNat % 64 - 0x80)
            = c.toNat := by omega
        rw [harg]
      · rw [if_neg h3]
        simp only [List.cons_append, List.nil_append, utf8DecodeOne]
        rw [if_neg (by omega), if_neg (by omega), if_neg (by omega), if_neg (by omega),
          if_pos (by omega), if_pos (by exact ⟨by omega, by omega, by omega⟩)]
        have harg : (0xF0 + c.toNat / 262144 - 0xF0) * 262144 +
            (0x80 + c.toNat / 4096 % 64 - 0x80) * 4096 +
            (0x80 + c.toNat / 64 % 64 - 0x80) * 64 + (0x80 + c.toNat % 64 - 0x80)
            = c.toNat := by omega
        rw [harg]

theorem utf8EncodeChar_ne_nil (c : Char) : utf8EncodeChar c.toNat ≠ [] := by
  rw [utf8EncodeChar]
  split_ifs <;> simp

theorem utf8DecodeAux_nil (fuel : Nat) : utf8DecodeAux fuel [] = some [] := by
  cases fuel <;> rfl

theorem utf8DecodeAux_encode (s : List Char) :
    ∀ fuel, (utf8Encode s).length ≤ fuel →
      utf8DecodeAux fuel (utf8Encode s) = some s := by
  induction s with
  | nil => intro fuel _; rw [utf8Encode]; simpa using utf8DecodeAux_nil fuel
  | cons c t ih =>
      intro fuel hfuel
      rw [utf8Encode, List.flatMap_cons] at hfuel ⊢
      obtain ⟨b, tail, htail⟩ :
          ∃ b tail, utf8EncodeChar c.toNat ++ t.flatMap (fun c => utf8EncodeChar c.toNat)
            = b :: tail := by
        cases henc : utf8EncodeChar c.toNat with
        | nil => exact absurd henc (utf8EncodeChar_ne_nil c)
        | cons b tl => exact ⟨b, tl ++ t.flatMap (fun c => utf8EncodeChar c.toNat), by simp⟩
      obtain ⟨fuel', rfl⟩ : ∃ fuel', fuel = fuel' + 1 := by
        have : 1 ≤ fuel := by
          calc 1 ≤ (b :: tail).length := by simp
          _ ≤ fuel := htail ▸ hfuel
        exact ⟨fuel - 1, by omega⟩
      rw [htail, utf8DecodeAux, ← htail, utf8DecodeOne_encodeChar]
      have hlen : (t.flatMap (fun c => utf8EncodeChar c.toNat)).length ≤ fuel' := by
        have h1 : 1 ≤ (utf8EncodeChar c.toNat).length := by
          cases henc : utf8EncodeChar c.toNat with
          | nil => exact absurd henc (utf8EncodeChar_ne_nil c)
          | cons b tl => simp
        rw [List.length_append] at hfuel
        omega
      rw [utf8Encode] at ih
      simp only []
      rw [ih fuel' hlen, Char.ofNat_toNat]
      rfl

theorem utf8Decode_utf8Encode (s : List Char) : utf8Decode (utf8Encode s) = some s :=
  utf8DecodeAux_encode s (utf8Encode s).length le_rfl

theorem utf8Encode_bytes_lt (s : List Char) : ∀ b ∈ utf8Encode s, b < 256 := by
  intro b hb
  rw [utf8Encode, List.mem_flatMap] at hb
  obtain ⟨c, -, hbc⟩ := hb
  exact utf8EncodeChar_bytes_lt c b hbc

theorem natCharsAux_eq_digits :
    ∀ (fuel n : Nat) (acc : List Char), n ≤ fuel →
      natCharsAux fuel n acc = ((Nat.digits 10 n).map digitChar).reverse ++ acc := by
  intro fuel
  induction fuel with
  | zero =>
      intro n acc hn
      interval_cases n
      simp [natCharsAux]
  | succ fuel2 ih =>
      intro n acc hn
      rw [natCharsAux]
      by_cases h0 : n = 0
      · subst h0
        simp
      · rw [if_neg h0]
        have hlt : n / 10 < n := Nat.div_lt_self (Nat.pos_of_ne_zero h0) (by norm_num)
        rw [ih (n / 10) _ (by omega)]
        rw [Nat.digits_def' (by norm_num : (1:Nat) < 10) (Nat.pos_of_ne_zero h0)]
        simp

theorem natChars_eq (n : Nat) :
    natChars n = if n = 0 then ['0'] else ((Nat.digits 10 n).map digitChar).reverse := by
  rw [natChars]
  by_cases h0 : n = 0
  · simp [h0]
  · rw [if_neg h0, if_neg h0, natCharsAux_eq_digits n n [] le_rfl]
    simp

theorem expectLit_append (cs rest : List Char) : expectLit cs (cs ++ rest) = some rest := by
  induction cs with
  | nil => rfl
  | cons c t ih => simpa [expectLit] using ih

theorem readStrAux_escape (s : List Char) :
    ∀ (acc rest : List Char),
      readStrAux false acc (escapeStr s ++ '"' :: rest) = some (acc.reverse ++ s, rest) := by
  induction s with
  | nil =>
      intro acc rest
      rw [escapeStr, List.flatMap_nil, List.nil_append, readStrAux, if_pos rfl]
      simp
  | cons c t ih =>
      intro acc rest
      rw [escapeStr, List.flatMap_cons, escapeChar]
      by_cases hc : c = '"' ∨ c = '\\'
      · rw [if_pos hc]
        have h1 : ('\\' :: [c]) ++ (t.flatMap escapeChar ++ '"' :: rest)
            = '\\' :: c :: (t.flatMap escapeChar ++ '"' :: rest) := by simp
        rw [List.append_assoc, h1, readStrAux, if_neg (by decide), if_pos rfl, readStrAux]
        rw [escapeStr] at ih
        rw [ih (c :: acc) rest]
        simp
      · rw [if_neg hc]
        push_neg at hc
        have h1 : [c] ++ (t.flatMap escapeChar ++ '"' :: rest)
            = c :: (t.flatMap escapeChar ++ '"' :: rest) := by simp
        rw [List.append_assoc, h1, readStrAux, if_neg hc.1, if_neg hc.2]
        rw [escapeStr] at ih
        rw [ih (c :: acc) rest]
        simp

theorem string_mk_toList (s : String) : String.mk s.toList = s := rfl

theorem readQuoted_quoteStr (s : String) (rest : List Char) :
    readQuoted (quoteStr s ++ rest) = some (s, rest) := by
  rw [quoteStr]
  have h1 : ('"' :: (escapeStr s.toList ++ ['"'])) ++ rest
      = '"' :: (escapeStr s.toList ++ '"' :: rest) := by simp
  rw [h1, readQuoted]
  rw [readStrAux_escape]
  simp [string_mk_toList]

theorem digit_roundtrip : ∀ d, d < 10 →
    digitVal (digitChar d) = d ∧ isDigitCh (digitChar d) = true := by
  decide

theorem natChars_digits (n : Nat) : ∀ ch ∈ natChars n, isDigitCh ch = true := by
  intro ch hch
  rw [natChars_eq] at hch
  split_ifs at hch with h
  · simp at hch
    subst hch
    decide
  · rw [List.mem_reverse, List.mem_map] at hch
    obtain ⟨d, hd, rfl⟩ := hch
    exact (digit_roundtrip d (Nat.digits_lt_base (by norm_num) hd)).2

theorem natChars_ne_nil (n : Nat) : natChars n ≠ [] := by
  rw [natChars_eq]
  split_ifs with h
  · simp
  · simp [Nat.digits_ne_nil_iff_ne_zero, h]

theorem takeWhile_append_eq (p : Char → Bool) (xs : List Char) (y : Char) (ys : List Char)
    (hx : ∀ x ∈ xs, p x = true) (hy : p y = false) :
    (xs ++ y :: ys).takeWhile p = xs ∧ (xs ++ y :: ys).dropWhile p = y :: ys := by
  induction xs with
  | nil => simp [List.takeWhile_cons, List.dropWhile_cons, hy]
  | cons x t ih =>
      have hxh : p x = true := hx x (by simp)
      have ht : ∀ z ∈ t, p z = true := fun z hz => hx z (by simp [hz])
      obtain ⟨ih1, ih2⟩ := ih ht
      simp [List.takeWhile_cons, List.dropWhile_cons, hxh, ih1, ih2]

theorem ofDigits_natChars (n : Nat) :
    Nat.ofDigits 10 (((natChars n).map digitVal).reverse) = n := by
  rw [natChars_eq]
  split_ifs with h
  · subst h
    decide
  · rw [List.map_reverse, List.reverse_reverse, List.map_map]
    have hcongr : (Nat.digits 10 n).map (digitVal ∘ digitChar) = Nat.digits 10 n := by
      have := List.map_congr_left (l := Nat.digits 10 n)
        (f := digitVal ∘ digitChar) (g := id)
        (fun d hd => (digit_roundtrip d (Nat.digits_lt_base (by norm_num) hd)).1)
      simpa using this
    rw [hcongr, Nat.ofDigits_digits]

theorem readNat_natChars (n : Nat) (c : Char) (rest : List Char)
    (hc : isDigitCh c = false) :
    readNat (natChars n ++ c :: rest) = some (n, c :: rest) := by
  obtain ⟨htake, hdrop⟩ := takeWhile_append_eq isDigitCh (natChars n) c rest
    (natChars_digits n) hc
  rw [readNat]
  simp only [htake, hdrop]
  rw [if_neg (by simp [natChars_ne_nil n])]
  rw [ofDigits_natChars]

theorem readBool_boolChars (b : Bool) (rest : List Char) :
    readBool (boolChars b ++ rest) = some (b, rest) := by
  cases b
  · rw [boolChars]
    simp only [Bool.false_eq_true, if_false]
    rw [readBool]
    have hfail : expectLit ("true".toList) ("false".toList ++ rest) = none := by
      have htr : ("true".toList) = 't' :: ("rue".toList) := rfl
      have hlist : "false".toList ++ rest = 'f' :: ("alse".toList ++ rest) := rfl
      rw [htr, hlist, expectLit]
      rw [if_neg (by decide)]
    rw [hfail, expectLit_append]
  · rw [boolChars]
    simp only [if_true]
    rw [readBool, expectLit_append]

theorem pairsChars_length_ge :
    ∀ ps : List (String × String), ps.length ≤ (pairsChars ps).length := by
  intro ps
  induction ps using pairsChars.induct with
  | case1 => simp [pairsChars]
  | case2 p => simp [pairsChars, pairChars, quoteStr]
  | case3 p q rest ih =>
      rw [pairsChars]
      simp only [List.length_append, List.length_cons]
      have hp : 1 ≤ (pairChars p).length := by
        simp [pairChars, quoteStr]
      simp only [List.length_cons] at ih ⊢
      omega

theorem readPairsAux_pairsChars :
    ∀ (ps : List (String × String)), ps ≠ [] →
      ∀ (fuel : Nat) (rest : List Char), ps.length ≤ fuel →
        readPairsAux fuel (pairsChars ps ++ '\x7d' :: rest) = some (ps, rest) := by
  intro ps
  induction ps with
  | nil => intro h; exact absurd rfl h
  | cons p t ih =>
      intro _ fuel rest hfuel
      obtain ⟨fuel2, rfl⟩ : ∃ f, fuel = f + 1 := by
        refine ⟨fuel - 1, ?_⟩
        simp only [List.length_cons] at hfuel
        omega
      obtain ⟨k, v⟩ := p
      cases t with
      | nil =>
          rw [pairsChars, pairChars]
          simp only [List.append_assoc, List.cons_append]
          rw [readPairsAux, readQuoted_quoteStr]
          simp only []
          rw [readQuoted_quoteStr]
          rfl
      | cons q t2 =>
          rw [pairsChars, pairChars]
          simp only [List.append_assoc, List.cons_append]
          rw [readPairsAux, readQuoted_quoteStr]
          simp only []
          rw [readQuoted_quoteStr]
          simp only []
          rw [ih (by simp) fuel2 rest
            (by simp only [List.length_cons] at hfuel ⊢; omega)]
          rfl

theorem readObj_objChars (ps : List (String × String)) (rest : List Char) :
    readObj (objChars ps ++ rest) = some (ps, rest) := by
  cases ps with
  | nil =>
      have h : objChars [] ++ rest = '\x7b' :: '\x7d' :: rest := rfl
      rw [h, readObj, readObjBody]
  | cons p t =>
      have h : objChars (p :: t) ++ rest
          = '\x7b' :: (pairsChars (p :: t) ++ '\x7d' :: rest) := by
        rw [objChars]
        simp
      rw [h, readObj]
      obtain ⟨tl, htl⟩ : ∃ tl, pairsChars (p :: t) ++ '\x7d' :: rest = '"' :: tl := by
        cases t <;> exact ⟨_, rfl⟩
      have hbody : readObjBody ('"' :: tl)
          = readPairsAux (('"' :: tl).length) ('"' :: tl) := rfl
      rw [htl, hbody, ← htl]
      refine readPairsAux_pairsChars (p :: t) (by simp) _ rest ?_
      have hlen := pairsChars_length_ge (p :: t)
      simp only [List.length_append, List.length_cons] at hlen ⊢
      omega

theorem parseStrField_eval (lit : List Char) (s : String) (rest : List Char) :
    parseStrField lit (lit ++ (quoteStr s ++ rest)) = some (s, rest) := by
  rw [parseStrField, expectLit_append, Option.some_bind, readQuoted_quoteStr]

theorem parseNatField_eval (lit : List Char) (n : Nat) (rest : List Char) :
    parseNatField lit (lit ++ (natChars n ++ (litDatabaseName ++ rest)))
      = some (n, litDatabaseName ++ rest) := by
  rw [parseNatField, expectLit_append, Option.some_bind]
  have h : litDatabaseName ++ rest = ',' :: (",\"DatabaseName\":".toList.tail ++ rest) := rfl
  rw [h, readNat_natChars n ',' _ (by decide)]

theorem parseCond_eval (lit : List Char) (b : Bool) (rest : List Char) :
    parseCond lit (lit ++ (boolChars b ++ rest)) = some (b, rest) := by
  rw [parseCond, expectLit_append, Option.some_bind, readBool_boolChars]

theorem parseObjField_eval (lit : List Char) (ps : List (String × String))
    (rest : List Char) :
    parseObjField lit (lit ++ (objChars ps ++ rest)) = some (ps, rest) := by
  rw [parseObjField, expectLit_append, Option.some_bind, readObj_objChars]

theorem parseBlobInfo_serializeBlobInfo (d : IngestionBlobInfo) :
    parseBlobInfo (serializeBlobInfo d) = some d := by
  rw [serializeBlobInfo, parseBlobInfo]
  simp only [List.append_assoc, parseStrField_eval, parseNatField_eval, parseCond_eval,
    parseObjField_eval, Option.some_bind]

theorem decodeMessage_encodeMessage (d : IngestionBlobInfo) :
    decodeMessage (encodeMessage d) = some d := by
  rw [encodeMessage, decodeMessage, b64decode_b64encode _ (utf8Encode_bytes_lt _)]
  simp only []
  rw [utf8Decode_utf8Encode]
  simp only []
  rw [parseBlobInfo_serializeBlobInfo]

theorem msgSpec_length (env : Env) (props : IngestionProperties)
    (queues : List StorageResource) :
    ∀ (blobs : List BlobDescriptor) (rng auth uuid : Nat),
      (msgSpec env props queues blobs rng auth uuid).length = blobs.length := by
  intro blobs
  induction blobs with
  | nil => intro rng auth uuid; rfl
  | cons blob rest ih =>
      intro rng auth uuid
      rw [msgSpec]
      simp only [List.length_cons, ih]

theorem msgSpec_getD (env : Env) (props : IngestionProperties)
    (queues : List StorageResource) :
    ∀ (blobs : List BlobDescriptor) (rng auth uuid i : Nat), i < blobs.length →
      (msgSpec env props queues blobs rng auth uuid).getD i noMessage =
        ⟨(randomChoice env (rng + i) queues).storage_account_name,
         (randomChoice env (rng + i) queues).object_name,
         encodeMessage (makeIngestionBlobInfo (blobs.getD i noBlob) props
           ((env.authResults (auth + i)).getD emptyStr) (env.uuidDraw (uuid + i)))⟩ := by
  intro blobs
  induction blobs with
  | nil => intro rng auth uuid i hi; simp at hi
  | cons blob rest ih =>
      intro rng auth uuid i hi
      cases i with
      | zero => simp [msgSpec]
      | succ j =>
          rw [msgSpec]
          simp only [List.getD_cons_succ]
          rw [ih (rng + 1) (auth + 1) (uuid + 1) j (by simp at hi; omega)]
          have h1 : rng + 1 + j = rng + (j + 1) := by omega
          have h2 : auth + 1 + j = auth + (j + 1) := by omega
          have h3 : uuid + 1 + j = uuid + (j + 1) := by omega
          rw [h1, h2, h3]

/-- Success-run characterization of the per-blob loop: the published messages
are exactly `msgSpec`, nothing else in the world changes except the three
consumed streams. -/
theorem ingestBlobsLoop_ok_spec (env : Env) (props : IngestionProperties)
    (queues : List StorageResource) :
    ∀ (blobs : List BlobDescriptor) (w w' : World),
      ingestBlobsLoop env props queues blobs w = .ok w' →
      w'.messages = w.messages
          ++ msgSpec env props queues blobs w.rngUsed w.authCalls w.uuidUsed
      ∧ w'.uploads = w.uploads ∧ w'.tempFiles = w.tempFiles
      ∧ w'.rngUsed = w.rngUsed + blobs.length
      ∧ w'.authCalls = w.authCalls + blobs.length
      ∧ w'.uuidUsed = w.uuidUsed + blobs.length
      ∧ w'.containerFetches = w.containerFetches
      ∧ w'.queueFetches = w.queueFetches := by
  intro blobs
  induction blobs with
  | nil =>
      intro w w' h
      rw [ingestBlobsLoop] at h
      cases h
      simp [msgSpec]
  | cons blob rest ih =>
      intro w w' h
      rw [ingestBlobsLoop] at h
      split at h
      · exact absurd h (by simp)
      · simp only [] at h
        split at h
        · exact absurd h (by simp)
        · next auth hauth =>
            split at h
            · have hspec := ih _ _ h
              simp only [] at hspec
              obtain ⟨hm, hu, ht, hr, ha, hid, hc, hqf⟩ := hspec
              refine ⟨?_, hu, ht, by simp only [List.length_cons, hr]; omega,
                by simp only [List.length_cons, ha]; omega,
                by simp only [List.length_cons, hid]; omega, hc, hqf⟩
              rw [hm, msgSpec]
              simp only [hauth, Option.getD_some, List.append_assoc, List.singleton_append]
            · exact absurd h (by simp)

theorem getD_after_append {α : Type} (l l' : List α) (i : Nat) (d : α) :
    (l ++ l').getD (l.length + i) d = l'.getD i d := by
  induction l with
  | nil => simp
  | cons x t ih =>
      have harith : (x :: t).length + i = (t.length + i) + 1 := by
        simp only [List.length_cons]
        omega
      rw [harith, List.cons_append, List.getD_cons_succ, ih]

theorem uploadSpec_length (env : Env) (props : IngestionProperties)
    (containers : List StorageResource) :
    ∀ (files : List FileSource) (uuid rng : Nat),
      (uploadSpec env props containers files uuid rng).length = files.length := by
  intro files
  induction files with
  | nil => intro uuid rng; rfl
  | cons f rest ih =>
      intro uuid rng
      rw [uploadSpec]
      simp only [List.length_cons, ih]

theorem uploadSpec_getD (env : Env) (props : IngestionProperties)
    (containers : List StorageResource) :
    ∀ (files : List FileSource) (uuid rng i : Nat), i < files.length →
      (uploadSpec env props containers files uuid rng).getD i noUpload =
        ⟨(randomChoice env (rng + i) containers).storage_account_name,
         (randomChoice env (rng + i) containers).object_name,
         blobNameFor props (env.uuidDraw (uuid + i))
           (sourceDescriptor env (files.getD i (.path emptyStr))).stream_name⟩ := by
  intro files
  induction files with
  | nil => intro uuid rng i hi; simp at hi
  | cons f rest ih =>
      intro uuid rng i hi
      cases i with
      | zero => simp [uploadSpec]
      | succ j =>
          rw [uploadSpec]
          simp only [List.getD_cons_succ]
          rw [ih (uuid + 1) (rng + 1) j (by simp at hi; omega)]
          have h1 : rng + 1 + j = rng + (j + 1) := by omega
          have h2 : uuid + 1 + j = uuid + (j + 1) := by omega
          rw [h1, h2]

/-- Success-run characterization of the per-file staging loop. -/
theorem stageFilesLoop_ok_spec (env : Env) (props : IngestionProperties)
    (containers : List StorageResource) :
    ∀ (files : List FileSource) (acc : List BlobDescriptor) (w : World)
      (blobs : List BlobDescriptor) (w' : World),
      stageFilesLoop env props containers files acc w = .ok blobs w' →
      blobs = acc ++ stagedBlobSpec env props containers files w.uuidUsed w.rngUsed
      ∧ w'.uploads = w.uploads ++ uploadSpec env props containers files w.uuidUsed w.rngUsed
      ∧ w'.messages = w.messages ∧ w'.tempFiles = w.tempFiles
      ∧ w'.uuidUsed = w.uuidUsed + files.length
      ∧ w'.rngUsed = w.rngUsed + files.length
      ∧ w'.authCalls = w.authCalls
      ∧ w'.containerFetches = w.containerFetches
      ∧ w'.queueFetches = w.queueFetches := by
  intro files
  induction files with
  | nil =>
      intro acc w blobs w' h
      rw [stageFilesLoop] at h
      cases h
      simp [stagedBlobSpec, uploadSpec]
  | cons f rest ih =>
      intro acc w blobs w' h
      rw [stageFilesLoop] at h
      split at h
      · exact absurd h (by simp)
      · simp only [] at h
        split at h
        · have hspec := ih _ _ _ _ h
          simp only [] at hspec
          obtain ⟨hb, hu, hm, ht, hid, hr, ha, hc, hqf⟩ := hspec
          refine ⟨?_, ?_, hm, ht, by simp only [List.length_cons, hid]; omega,
            by simp only [List.length_cons, hr]; omega, ha, hc, hqf⟩
          · rw [hb, stagedBlobSpec]
            simp only [List.append_assoc, List.singleton_append]
          · rw [hu, uploadSpec]
            simp only [List.append_assoc, List.singleton_append]
        · exact absurd h (by simp)

/-- Success-run characterization of `ingest_from_blobs`. -/
theorem ingest_from_blobs_ok_spec (env : Env) (blobs : List BlobDescriptor)
    (props : IngestionProperties) (queues : List StorageResource) (w w' : World)
    (hq : env.queuesResult = some queues)
    (h : ingest_from_blobs env blobs props w = .ok w') :
    w'.messages = w.messages ++ msgSpec env props queues blobs w.rngUsed w.authCalls w.uuidUsed
    ∧ w'.uploads = w.uploads ∧ w'.tempFiles = w.tempFiles
    ∧ w'.rngUsed = w.rngUsed + blobs.length
    ∧ w'.authCalls = w.authCalls + blobs.length
    ∧ w'.uuidUsed = w.uuidUsed + blobs.length
    ∧ w'.containerFetches = w.containerFetches
    ∧ w'.queueFetches = w.queueFetches + 1 := by
  rw [ingest_from_blobs, hq] at h
  have hspec := ingestBlobsLoop_ok_spec env props queues blobs _ _ h
  simpa using hspec

/-- Success-run characterization of `ingest_from_files`: all uploads happen,
then all messages are published from the staged blob descriptors. -/
theorem ingest_from_files_ok_spec (env : Env) (files : List FileSource)
    (props : IngestionProperties) (containers queues : List StorageResource) (w w' : World)
    (hc : env.containersResult = some containers)
    (hq : env.queuesResult = some queues)
    (h : ingest_from_files env files props w = .ok w') :
    w'.uploads = w.uploads ++ uploadSpec env props containers files w.uuidUsed w.rngUsed
    ∧ w'.messages = w.messages ++ msgSpec env props queues
        (stagedBlobSpec env props containers files w.uuidUsed w.rngUsed)
        (w.rngUsed + files.length) w.authCalls (w.uuidUsed + files.length)
    ∧ w'.tempFiles = w.tempFiles
    ∧ w'.containerFetches = w.containerFetches + 1
    ∧ w'.queueFetches = w.queueFetches + 1 := by
  rw [ingest_from_files, hc] at h
  simp only [] at h
  cases hstage : stageFilesLoop env props containers files []
      { w with containerFetches := w.containerFetches + 1 } with
  | err e w2 =>
      rw [hstage] at h
      exact absurd h (by simp)
  | ok blobs w2 =>
      rw [hstage] at h
      obtain ⟨hb, hu, hm, ht, hid, hr, ha, hcf, hqf⟩ :=
        stageFilesLoop_ok_spec env props containers files _ _ _ _ hstage
      obtain ⟨hm2, hu2, ht2, hr2, ha2, hid2, hcf2, hqf2⟩ :=
        ingest_from_blobs_ok_spec env blobs props queues w2 w' hq h
      subst hb
      refine ⟨?_, ?_, ?_, ?_, ?_⟩
      · rw [hu2, hu]
      · rw [hm2, hm, hr, ha, hid]
        simp only [List.nil_append]
      · rw [ht2, ht]
      · rw [hcf2, hcf]
      · rw [hqf2, hqf]

/-- Success-run characterization of `ingest_from_dataframe`: one staged upload
of the temp artifact under the formatted blob name, and the temp file removed
after the normal return. -/
theorem ingest_from_dataframe_ok_spec (env : Env) (props : IngestionProperties)
    (containers : List StorageResource) (w w' : World)
    (hc : env.containersResult = some containers)
    (h : ingest_from_dataframe env props w = .ok w') :
    w'.uploads = w.uploads ++
      [⟨(randomChoice env w.rngUsed containers).storage_account_name,
        (randomChoice env w.rngUsed containers).object_name,
        blobNameFor props (env.uuidDraw w.uuidUsed) (dfFileName env)⟩]
    ∧ w'.tempFiles = (w.tempFiles ++ [dfTempPath env]).filter (· != dfTempPath env) := by
  rw [ingest_from_dataframe] at h
  simp only [hc] at h
  split at h
  · exact absurd h (by simp)
  · split at h
    · split at h
      · next w5 hblob =>
          cases h
          cases hqr : env.queuesResult with
          | none =>
              rw [ingest_from_blobs, hqr] at hblob
              exact absurd hblob (by simp)
          | some queues =>
              obtain ⟨-, hu5, ht5, -, -, -, -, -⟩ :=
                ingest_from_blobs_ok_spec env _ props queues _ _ hqr hblob
              constructor
              · exact hu5
              · show w5.tempFiles.filter (· != dfTempPath env)
                    = (w.tempFiles ++ [dfTempPath env]).filter (· != dfTempPath env)
                rw [show w5.tempFiles = w.tempFiles ++ [dfTempPath env] from ht5]
      · next e w5 hblob => exact absurd h (by simp)
    · exact absurd h (by simp)

/-- C4: for every valid triple (blob descriptor, ingestion properties,
authorization context) — and any generated message id — serializing the
ingestion descriptor to JSON, UTF-8-encoding and base64-encoding it, then
base64-decoding, UTF-8-decoding and JSON-parsing it back, yields a document
structurally identical to the original. -/
theorem claim_C4 (blob : BlobDescriptor) (props : IngestionProperties)
    (auth ident : String) :
    decodeMessage (encodeMessage (makeIngestionBlobInfo blob props auth ident))
      = some (makeIngestionBlobInfo blob props auth ident) :=
  decodeMessage_encodeMessage _

/-- C1: a successful `ingest_from_blobs` over N blobs publishes exactly one
queue message per blob — N messages in total, never batching two blobs into
one message — and the i-th message's content is the base64 encoding of the
UTF-8 bytes of that blob's ingestion-descriptor JSON document. -/
theorem claim_C1 (env : Env) (blobs : List BlobDescriptor) (props : IngestionProperties)
    (queues : List StorageResource) (w : World)
    (hq : env.queuesResult = some queues)
    (hok : (ingest_from_blobs env blobs props w).isOk = true) :
    ((ingest_from_blobs env blobs props w).world).messages.length
        = w.messages.length + blobs.length
    ∧ ∀ i, i < blobs.length →
        (((ingest_from_blobs env blobs props w).world).messages.getD
            (w.messages.length + i) noMessage).content
          = b64encode (utf8Encode (serializeBlobInfo (makeIngestionBlobInfo
              (blobs.getD i noBlob) props
              ((env.authResults (w.authCalls + i)).getD emptyStr)
              (env.uuidDraw (w.uuidUsed + i))))) := by
  cases hrun : ingest_from_blobs env blobs props w with
  | err e w2 =>
      rw [hrun] at hok
      simp [RunResult.isOk] at hok
  | ok w2 =>
      obtain ⟨hm, -, -, -, -, -, -, -⟩ :=
        ingest_from_blobs_ok_spec env blobs props queues w w2 hq hrun
      constructor
      · show w2.messages.length = w.messages.length + blobs.length
        rw [hm]
        simp [msgSpec_length]
      · intro i hi
        show (w2.messages.getD (w.messages.length + i) noMessage).content = _
        rw [hm, getD_after_append, msgSpec_getD env props queues blobs _ _ _ i hi]
        simp only [encodeMessage]

/-- C2: every blob staged by `ingest_from_files` — and the temp artifact staged
by `ingest_from_dataframe` — is uploaded under the object key
`"{database}__{table}__{uuid}__{originalFileOrStreamName}"`, with a fresh uuid
drawn per item. -/
theorem claim_C2 (env : Env) (files : List FileSource) (props : IngestionProperties)
    (containers queues : List StorageResource) (w : World)
    (hc : env.containersResult = some containers)
    (hq : env.queuesResult = some queues)
    (hfok : (ingest_from_files env files props w).isOk = true)
    (hdok : (ingest_from_dataframe env props w).isOk = true) :
    (∀ i, i < files.length →
      (((ingest_from_files env files props w).world).uploads.getD
          (w.uploads.length + i) noUpload).blobName
        = props.database ++ "__" ++ props.table ++ "__"
          ++ env.uuidDraw (w.uuidUsed + i) ++ "__"
          ++ (sourceDescriptor env (files.getD i (.path emptyStr))).stream_name)
    ∧ (((ingest_from_dataframe env props w).world).uploads.getD
          w.uploads.length noUpload).blobName
        = props.database ++ "__" ++ props.table ++ "__"
          ++ env.uuidDraw w.uuidUsed ++ "__" ++ dfFileName env := by
  constructor
  · intro i hi
    cases hrun : ingest_from_files env files props w with
    | err e w2 =>
        rw [hrun] at hfok
        simp [RunResult.isOk] at hfok
    | ok w2 =>
        obtain ⟨hu, -, -, -, -⟩ :=
          ingest_from_files_ok_spec env files props containers queues w w2 hc hq hrun
        show (w2.uploads.getD (w.uploads.length + i) noUpload).blobName = _
        rw [hu, getD_after_append, uploadSpec_getD env props containers files _ _ i hi]
        rfl
  · cases hrun : ingest_from_dataframe env props w with
    | err e w2 =>
        rw [hrun] at hdok
        simp [RunResult.isOk] at hdok
    | ok w2 =>
        obtain ⟨hu, -⟩ :=
          ingest_from_dataframe_ok_spec env props containers w w2 hc hrun
        show (w2.uploads.getD w.uploads.length noUpload).blobName = _
        rw [hu]
        have hg := getD_after_append w.uploads
          [(⟨(randomChoice env w.rngUsed containers).storage_account_name,
            (randomChoice env w.rngUsed containers).object_name,
            blobNameFor props (env.uuidDraw w.uuidUsed) (dfFileName env)⟩ : UploadRecord)]
          0 noUpload
        rw [Nat.add_zero] at hg
        rw [hg]
        rfl

/-- C6: when the resource-authority fetch of the container pool fails,
`ingest_from_files` fails with `ResourceUnavailable` immediately — before any
blob upload is attempted for any input file (the upload trace is untouched). -/
theorem claim_C6 (env : Env) (files : List FileSource) (props : IngestionProperties)
    (w : World) (hc : env.containersResult = none) :
    ingest_from_files env files props w
      = .err .resourceUnavailable { w with containerFetches := w.containerFetches + 1 }
    ∧ ((ingest_from_files env files props w).world).uploads = w.uploads := by
  rw [ingest_from_files, hc]
  exact ⟨rfl, rfl⟩

/-- C7: the pick for each staged file is a fresh, independent draw of the
random stream, uniform over the whole container pool (`random.choice` applied
to the full pool once per file, not once per batch), and likewise each blob
message takes a fresh uniform draw over the queue pool. -/
theorem claim_C7 (env : Env) (files : List FileSource) (blobs : List BlobDescriptor)
    (props : IngestionProperties) (containers queues : List StorageResource) (w : World)
    (hc : env.containersResult = some containers)
    (hq : env.queuesResult = some queues)
    (hfok : (ingest_from_files env files props w).isOk = true)
    (hbok : (ingest_from_blobs env blobs props w).isOk = true) :
    (∀ i, i < files.length →
      (((ingest_from_files env files props w).world).uploads.getD
          (w.uploads.length + i) noUpload).account
        = (containers.getD (env.randDraw (w.rngUsed + i) % containers.length)
            noResource).storage_account_name
      ∧ (((ingest_from_files env files props w).world).uploads.getD
          (w.uploads.length + i) noUpload).container
        = (containers.getD (env.randDraw (w.rngUsed + i) % containers.length)
            noResource).object_name)
    ∧ (∀ i, i < blobs.length →
      (((ingest_from_blobs env blobs props w).world).messages.getD
          (w.messages.length + i) noMessage).queue
        = (queues.getD (env.randDraw (w.rngUsed + i) % queues.length)
            noResource).object_name) := by
  constructor
  · intro i hi
    cases hrun : ingest_from_files env files props w with
    | err e w2 =>
        rw [hrun] at hfok
        simp [RunResult.isOk] at hfok
    | ok w2 =>
        obtain ⟨hu, -, -, -, -⟩ :=
          ingest_from_files_ok_spec env files props containers queues w w2 hc hq hrun
        constructor
        · show (w2.uploads.getD (w.uploads.length + i) noUpload).account = _
          rw [hu, getD_after_append, uploadSpec_getD env props containers files _ _ i hi]
          rfl
        · show (w2.uploads.getD (w.uploads.length + i) noUpload).container = _
          rw [hu, getD_after_append, uploadSpec_getD env props containers files _ _ i hi]
          rfl
  · intro i hi
    cases hrun : ingest_from_blobs env blobs props w with
    | err e w2 =>
        rw [hrun] at hbok
        simp [RunResult.isOk] at hbok
    | ok w2 =>
        obtain ⟨hm, -, -, -, -, -, -, -⟩ :=
          ingest_from_blobs_ok_spec env blobs props queues w w2 hq hrun
        show (w2.messages.getD (w.messages.length + i) noMessage).queue = _
        rw [hm, getD_after_append, msgSpec_getD env props queues blobs _ _ _ i hi]
        rfl

/-- C9: `ingest_from_files` with an empty file list performs no upload and
publishes no message, yet still fetches the container pool and — through the
delegated `ingest_from_blobs` call — the queue pool from the resource manager. -/
theorem claim_C9 (env : Env) (props : IngestionProperties)
    (containers queues : List StorageResource) (w : World)
    (hc : env.containersResult = some containers)
    (hq : env.queuesResult = some queues) :
    ingest_from_files env [] props w
      = .ok { { w with containerFetches := w.containerFetches + 1 } with
              queueFetches := w.queueFetches + 1 } := by
  rw [ingest_from_files, hc]
  simp only []
  rw [stageFilesLoop]
  simp only []
  rw [ingest_from_blobs, hq]
  simp only []
  rw [ingestBlobsLoop]

/-- C10: in `ingest_from_blobs` the authorization context is fetched from the
resource manager separately for each blob, inside the loop: exactly one fetch
per blob happens, and the i-th published message embeds the context returned
by the i-th fetch, so a context refresh mid-batch yields messages with
different contexts. -/
theorem claim_C10 (env : Env) (blobs : List BlobDescriptor) (props : IngestionProperties)
    (queues : List StorageResource) (w : World)
    (hq : env.queuesResult = some queues)
    (hok : (ingest_from_blobs env blobs props w).isOk = true) :
    ((ingest_from_blobs env blobs props w).world).authCalls
        = w.authCalls + blobs.length
    ∧ ∀ i, i < blobs.length →
        (((ingest_from_blobs env blobs props w).world).messages.getD
            (w.messages.length + i) noMessage).content
          = encodeMessage (makeIngestionBlobInfo (blobs.getD i noBlob) props
              ((env.authResults (w.authCalls + i)).getD emptyStr)
              (env.uuidDraw (w.uuidUsed + i))) := by
  cases hrun : ingest_from_blobs env blobs props w with
  | err e w2 =>
      rw [hrun] at hok
      simp [RunResult.isOk] at hok
  | ok w2 =>
      obtain ⟨hm, -, -, -, ha, -, -, -⟩ :=
        ingest_from_blobs_ok_spec env blobs props queues w w2 hq hrun
      refine ⟨ha, ?_⟩
      intro i hi
      show (w2.messages.getD (w.messages.length + i) noMessage).content = _
      rw [hm, getD_after_append, msgSpec_getD env props queues blobs _ _ _ i hi]

theorem claim_C1_witness :
    envOk.queuesResult = some [quA, quB]
    ∧ (ingest_from_blobs envOk blobsX propsX World.initial).isOk = true
    ∧ (((ingest_from_blobs envOk blobsX propsX World.initial).world).messages.length
          = World.initial.messages.length + blobsX.length
      ∧ ∀ i, i < blobsX.length →
          (((ingest_from_blobs envOk blobsX propsX World.initial).world).messages.getD
              (World.initial.messages.length + i) noMessage).content
            = b64encode (utf8Encode (serializeBlobInfo (makeIngestionBlobInfo
                (blobsX.getD i noBlob) propsX
                ((envOk.authResults (World.initial.authCalls + i)).getD emptyStr)
                (envOk.uuidDraw (World.initial.uuidUsed + i)))))) :=
  ⟨rfl, rfl, claim_C1 envOk blobsX propsX [quA, quB] World.initial rfl rfl⟩

theorem claim_C2_witness :
    envOk.containersResult = some [contA, contB]
    ∧ envOk.queuesResult = some [quA, quB]
    ∧ (ingest_from_files envOk filesX propsX World.initial).isOk = true
    ∧ (ingest_from_dataframe envOk propsX World.initial).isOk = true
    ∧ ((∀ i, i < filesX.length →
        (((ingest_from_files envOk filesX propsX World.initial).world).uploads.getD
            (World.initial.uploads.length + i) noUpload).blobName
          = propsX.database ++ "__" ++ propsX.table ++ "__"
            ++ envOk.uuidDraw (World.initial.uuidUsed + i) ++ "__"
            ++ (sourceDescriptor envOk (filesX.getD i (.path emptyStr))).stream_name)
      ∧ (((ingest_from_dataframe envOk propsX World.initial).world).uploads.getD
            World.initial.uploads.length noUpload).blobName
          = propsX.database ++ "__" ++ propsX.table ++ "__"
            ++ envOk.uuidDraw World.initial.uuidUsed ++ "__" ++ dfFileName envOk) :=
  ⟨rfl, rfl, rfl, rfl,
    claim_C2 envOk filesX propsX [contA, contB] [quA, quB] World.initial rfl rfl rfl rfl⟩

theorem claim_C6_witness :
    envNoCont.containersResult = none
    ∧ (ingest_from_files envNoCont filesX propsX World.initial
        = .err .resourceUnavailable
            { World.initial with containerFetches := World.initial.containerFetches + 1 }
      ∧ ((ingest_from_files envNoCont filesX propsX World.initial).world).uploads
          = World.initial.uploads) :=
  ⟨rfl, claim_C6 envNoCont filesX propsX World.initial rfl⟩

theorem claim_C7_witness :
    envOk.containersResult = some [contA, contB]
    ∧ envOk.queuesResult = some [quA, quB]
    ∧ (ingest_from_files envOk filesX propsX World.initial).isOk = true
    ∧ (ingest_from_blobs envOk blobsX propsX World.initial).isOk = true
    ∧ ((∀ i, i < filesX.length →
        (((ingest_from_files envOk filesX propsX World.initial).world).uploads.getD
            (World.initial.uploads.length + i) noUpload).account
          = ([contA, contB].getD (envOk.randDraw (World.initial.rngUsed + i)
              % [contA, contB].length) noResource).storage_account_name
        ∧ (((ingest_from_files envOk filesX propsX World.initial).world).uploads.getD
            (World.initial.uploads.length + i) noUpload).container
          = ([contA, contB].getD (envOk.randDraw (World.initial.rngUsed + i)
              % [contA, contB].length) noResource).object_name)
      ∧ (∀ i, i < blobsX.length →
        (((ingest_from_blobs envOk blobsX propsX World.initial).world).messages.getD
            (World.initial.messages.length + i) noMessage).queue
          = ([quA, quB].getD (envOk.randDraw (World.initial.rngUsed + i)
              % [quA, quB].length) noResource).object_name)) :=
  ⟨rfl, rfl, rfl, rfl,
    claim_C7 envOk filesX blobsX propsX [contA, contB] [quA, quB] World.initial
      rfl rfl rfl rfl⟩

theorem claim_C9_witness :
    envOk.containersResult = some [contA, contB]
    ∧ envOk.queuesResult = some [quA, quB]
    ∧ ingest_from_files envOk [] propsX World.initial
        = .ok { { World.initial with
              containerFetches := World.initial.containerFetches + 1 } with
            queueFetches := World.initial.queueFetches + 1 } :=
  ⟨rfl, rfl, claim_C9 envOk propsX [contA, contB] [quA, quB] World.initial rfl rfl⟩

theorem claim_C10_witness :
    envOk.queuesResult = some [quA, quB]
    ∧ (ingest_from_blobs envOk blobsX propsX World.initial).isOk = true
    ∧ (((ingest_from_blobs envOk blobsX propsX World.initial).world).authCalls
          = World.initial.authCalls + blobsX.length
      ∧ ∀ i, i < blobsX.length →
          (((ingest_from_blobs envOk blobsX propsX World.initial).world).messages.getD
              (World.initial.messages.length + i) noMessage).content
            = encodeMessage (makeIngestionBlobInfo (blobsX.getD i noBlob) propsX
                ((envOk.authResults (World.initial.authCalls + i)).getD emptyStr)
                (envOk.uuidDraw (World.initial.uuidUsed + i)))) :=
  ⟨rfl, rfl, claim_C10 envOk blobsX propsX [quA, quB] World.initial rfl rfl⟩

theorem ingestBlobsLoop_err_tempFiles (env : Env) (props : IngestionProperties)
    (queues : List StorageResource) :
    ∀ (blobs : List BlobDescriptor) (w : World) (e : IngestError) (w2 : World),
      ingestBlobsLoop env props queues blobs w = .err e w2 → w2.tempFiles = w.tempFiles := by
  intro blobs
  induction blobs with
  | nil =>
      intro w e w2 h
      rw [ingestBlobsLoop] at h
      exact absurd h (by simp)
  | cons blob rest ih =>
      intro w e w2 h
      rw [ingestBlobsLoop] at h
      split at h
      · cases h
        rfl
      · simp only [] at h
        split at h
        · cases h
          rfl
        · next auth hauth =>
            split at h
            · have hrec := ih _ _ _ h
              exact hrec
            · cases h
              rfl

theorem ingest_from_blobs_err_tempFiles (env : Env) (blobs : List BlobDescriptor)
    (props : IngestionProperties) (w : World) (e : IngestError) (w2 : World)
    (h : ingest_from_blobs env blobs props w = .err e w2) : w2.tempFiles = w.tempFiles := by
  rw [ingest_from_blobs] at h
  cases hq : env.queuesResult with
  | none =>
      rw [hq] at h
      simp only [] at h
      cases h
      rfl
  | some queues =>
      rw [hq] at h
      simp only [] at h
      have hrec := ingestBlobsLoop_err_tempFiles env props queues blobs _ _ _ h
      exact hrec

theorem filter_append_singleton_self (l : List String) (p : String) (h : p ∉ l) :
    (l ++ [p]).filter (· != p) = l := by
  rw [List.filter_append]
  have h1 : l.filter (· != p) = l := by
    rw [List.filter_eq_self]
    intro a ha
    simp only [bne_iff_ne, ne_eq]
    intro heq
    exact h (heq ▸ ha)
  have h2 : [p].filter (· != p) = [] := by simp
  rw [h1, h2, List.append_nil]

theorem claim_C5_counterexample :
    (ingest_from_dataframe envPubFail propsX World.initial).isOk = false
    ∧ ((ingest_from_dataframe envPubFail propsX World.initial).world).tempFiles
        = [dfTempPath envPubFail] :=
  ⟨rfl, rfl⟩

/-- C5 (amended): the temp artifact created by `ingest_from_dataframe` is
deleted only on the normal-return path; on any exception (resource fetch,
upload or publish failure) the artifact remains on disk. -/
theorem claim_C5_amended (env : Env) (props : IngestionProperties) (w : World)
    (hnotin : dfTempPath env ∉ w.tempFiles) :
    ((ingest_from_dataframe env props w).isOk = true →
      ((ingest_from_dataframe env props w).world).tempFiles = w.tempFiles)
    ∧ ((ingest_from_dataframe env props w).isOk = false →
      ((ingest_from_dataframe env props w).world).tempFiles
        = w.tempFiles ++ [dfTempPath env]) := by
  cases hrun : ingest_from_dataframe env props w with
  | ok w2 =>
      constructor
      · intro _
        show w2.tempFiles = w.tempFiles
        cases hcr : env.containersResult with
        | none =>
            rw [ingest_from_dataframe] at hrun
            simp only [hcr] at hrun
            exact absurd hrun (by simp)
        | some containers =>
            obtain ⟨-, ht⟩ := ingest_from_dataframe_ok_spec env props containers w w2 hcr hrun
            rw [ht]
            exact filter_append_singleton_self w.tempFiles (dfTempPath env) hnotin
      · intro hfalse
        simp [RunResult.isOk] at hfalse
  | err e w2 =>
      constructor
      · intro htrue
        simp [RunResult.isOk] at htrue
      · intro _
        show w2.tempFiles = w.tempFiles ++ [dfTempPath env]
        rw [ingest_from_dataframe] at hrun
        cases hcr : env.containersResult with
        | none =>
            simp only [hcr] at hrun
            cases hrun
            rfl
        | some containers =>
            simp only [hcr] at hrun
            split at hrun
            · cases hrun
              rfl
            · split at hrun
              · split at hrun
                · exact absurd hrun (by simp)
                · next e5 w5 hblob =>
                    cases hrun
                    rw [ingest_from_blobs_err_tempFiles env _ props _ _ _ hblob]
              · cases hrun
                rfl

theorem claim_C5_amended_witness :
    dfTempPath envOk ∉ World.initial.tempFiles
    ∧ (ingest_from_dataframe envOk propsX World.initial).isOk = true
    ∧ ((ingest_from_dataframe envOk propsX World.initial).world).tempFiles
        = World.initial.tempFiles :=
  ⟨by simp [World.initial], rfl,
    (claim_C5_amended envOk propsX World.initial (by simp [World.initial])).1 rfl⟩

theorem take_append_self {α : Type} (l l2 : List α) : (l ++ l2).take l.length = l := by
  induction l with
  | nil => simp
  | cons x t ih => simp [ih]

/-- On every path, the staging loop only appends to the upload trace and never
touches the message trace. -/
theorem stageFilesLoop_trace (env : Env) (props : IngestionProperties)
    (containers : List StorageResource) :
    ∀ (files : List FileSource) (acc : List BlobDescriptor) (w : World),
      (∃ l, ((stageFilesLoop env props containers files acc w).world).uploads
          = w.uploads ++ l)
      ∧ ((stageFilesLoop env props containers files acc w).world).messages
          = w.messages := by
  intro files
  induction files with
  | nil =>
      intro acc w
      exact ⟨⟨[], by simp [stageFilesLoop, StageResult.world]⟩, rfl⟩
  | cons f rest ih =>
      intro acc w
      rw [stageFilesLoop]
      simp only []
      split
      · exact ⟨⟨[], by simp [StageResult.world]⟩, rfl⟩
      · split
        · obtain ⟨⟨l, hl⟩, hmsg⟩ := ih
            (acc ++ [⟨makeBlobUrl (randomChoice env w.rngUsed containers).storage_account_name
              (randomChoice env w.rngUsed containers).object_name
              (blobNameFor props (env.uuidDraw w.uuidUsed)
                (sourceDescriptor env f).stream_name)
              (randomChoice env w.rngUsed containers).sas,
              (sourceDescriptor env f).size⟩])
            { w with
              uploads := w.uploads ++
                [⟨(randomChoice env w.rngUsed containers).storage_account_name,
                  (randomChoice env w.rngUsed containers).object_name,
                  blobNameFor props (env.uuidDraw w.uuidUsed)
                    (sourceDescriptor env f).stream_name⟩],
              rngUsed := w.rngUsed + 1, uuidUsed := w.uuidUsed + 1 }
          constructor
          · refine ⟨(⟨(randomChoice env w.rngUsed containers).storage_account_name,
              (randomChoice env w.rngUsed containers).object_name,
              blobNameFor props (env.uuidDraw w.uuidUsed)
                (sourceDescriptor env f).stream_name⟩ : UploadRecord) :: l, ?_⟩
            rw [hl]
            simp
          · rw [hmsg]
        · exact ⟨⟨[], by simp [StageResult.world]⟩, rfl⟩

/-- The blob loop never raises `UploadFailed` and never changes the upload
trace. -/
theorem ingestBlobsLoop_no_uploadFailed (env : Env) (props : IngestionProperties)
    (queues : List StorageResource) :
    ∀ (blobs : List BlobDescriptor) (w : World),
      (ingestBlobsLoop env props queues blobs w).errOf ≠ some .uploadFailed
      ∧ ((ingestBlobsLoop env props queues blobs w).world).uploads = w.uploads := by
  intro blobs
  induction blobs with
  | nil =>
      intro w
      exact ⟨by simp [ingestBlobsLoop, RunResult.errOf], rfl⟩
  | cons blob rest ih =>
      intro w
      rw [ingestBlobsLoop]
      split
      · exact ⟨by simp [RunResult.errOf], rfl⟩
      · simp only []
        split
        · exact ⟨by simp [RunResult.errOf], rfl⟩
        · next auth hauth =>
            split
            · exact ih _
            · exact ⟨by simp [RunResult.errOf], rfl⟩

theorem ingest_from_blobs_no_uploadFailed (env : Env) (blobs : List BlobDescriptor)
    (props : IngestionProperties) (w : World) :
    (ingest_from_blobs env blobs props w).errOf ≠ some .uploadFailed
    ∧ ((ingest_from_blobs env blobs props w).world).uploads = w.uploads := by
  rw [ingest_from_blobs]
  cases hq : env.queuesResult with
  | none => exact ⟨by simp [RunResult.errOf], rfl⟩
  | some queues =>
      have h := ingestBlobsLoop_no_uploadFailed env props queues blobs
        { w with queueFetches := w.queueFetches + 1 }
      exact h

/-- C8 counterexample: a two-file batch in which the first item stages fine and
the second upload fails yields one all-or-nothing `UploadFailed` exception —
one item's blob is durably staged, no message is published for either item, and
no per-item outcome is returned. -/
theorem claim_C8_counterexample :
    (ingest_from_files envUpFail filesX propsX World.initial).errOf
        = some .uploadFailed
    ∧ ((ingest_from_files envUpFail filesX propsX World.initial).world).uploads.length = 1
    ∧ ((ingest_from_files envUpFail filesX propsX World.initial).world).messages.length
        = 0 :=
  ⟨rfl, rfl, rfl⟩

/-- C8 (amended): `ingest_from_files` reports no per-item outcomes: the first
upload failure aborts the whole call with the single `UploadFailed` exception,
at which point no message has been published for any item of the batch, while
the uploads already performed remain staged (the prior upload trace persists as
a prefix). -/
theorem claim_C8_amended (env : Env) (files : List FileSource)
    (props : IngestionProperties) (w : World) :
    ((ingest_from_files env files props w).errOf = some .uploadFailed →
      ((ingest_from_files env files props w).world).messages = w.messages)
    ∧ ((ingest_from_files env files props w).world).uploads.take w.uploads.length
        = w.uploads := by
  rw [ingest_from_files]
  cases hc : env.containersResult with
  | none =>
      simp only []
      refine ⟨fun hco => absurd hco (by simp [RunResult.errOf]), ?_⟩
      show w.uploads.take w.uploads.length = w.uploads
      simp
  | some containers =>
      simp only []
      obtain ⟨⟨l, hl⟩, hmsg⟩ := stageFilesLoop_trace env props containers files []
        { w with containerFetches := w.containerFetches + 1 }
      cases hstage : stageFilesLoop env props containers files []
          { w with containerFetches := w.containerFetches + 1 } with
      | err e w2 =>
          rw [hstage] at hl hmsg
          simp only [StageResult.world] at hl hmsg
          constructor
          · intro _
            show w2.messages = w.messages
            exact hmsg
          · show w2.uploads.take w.uploads.length = w.uploads
            rw [hl]
            exact take_append_self _ _
      | ok blobs w2 =>
          rw [hstage] at hl hmsg
          simp only [StageResult.world] at hl hmsg
          obtain ⟨hne, hup⟩ := ingest_from_blobs_no_uploadFailed env blobs props w2
          constructor
          · intro hco
            exact absurd hco hne
          · show ((ingest_from_blobs env blobs props w2).world).uploads.take
                w.uploads.length = w.uploads
            rw [hup, hl]
            exact take_append_self _ _

theorem claim_C8_amended_witness :
    (ingest_from_files envUpFail filesX propsX World.initial).errOf
        = some .uploadFailed
    ∧ ((ingest_from_files envUpFail filesX propsX World.initial).world).messages
        = World.initial.messages
    ∧ ((ingest_from_files envUpFail filesX propsX World.initial).world).uploads.take
        World.initial.uploads.length = World.initial.uploads :=
  ⟨rfl, (claim_C8_amended envUpFail filesX propsX World.initial).1 rfl,
    (claim_C8_amended envUpFail filesX propsX World.initial).2⟩

theorem runCacheCalls_within (ttl t0 : Nat) :
    ∀ times : List Nat, (∀ t ∈ times, t - t0 ≤ ttl) →
      runCacheCalls ttl times (some t0) = (0, some t0) := by
  intro times
  induction times with
  | nil => intro _; rfl
  | cons t rest ih =>
      intro hwin
      have hstep : cacheStep ttl t (some t0) = (false, some t0) := by
        rw [cacheStep, if_neg]
        have := hwin t (by simp)
        omega
      rw [runCacheCalls, hstep]
      simp only []
      rw [ih (fun t2 ht2 => hwin t2 (by simp [ht2]))]
      simp

theorem runCacheCalls_append (ttl : Nat) :
    ∀ (xs ys : List Nat) (st : Option Nat),
      runCacheCalls ttl (xs ++ ys) st
        = ((runCacheCalls ttl xs st).1
            + (runCacheCalls ttl ys (runCacheCalls ttl xs st).2).1,
           (runCacheCalls ttl ys (runCacheCalls ttl xs st).2).2) := by
  intro xs
  induction xs with
  | nil =>
      intro ys st
      rw [List.nil_append, runCacheCalls]
      simp
  | cons x rest ih =>
      intro ys st
      rw [List.cons_append, runCacheCalls, runCacheCalls, ih]
      simp [Nat.add_assoc]

/-- C3: starting from an empty cache, a first call at `t0` followed by any
number of further calls whose age relative to `t0` stays within the TTL issues
exactly one remote fetch; one more call after the TTL has elapsed issues
exactly one more. -/
theorem claim_C3 (ttl t0 tLate : Nat) (times : List Nat)
    (hwin : ∀ t ∈ times, t - t0 ≤ ttl) (hlate : ttl < tLate - t0) :
    (runCacheCalls ttl (t0 :: times) none).1 = 1
    ∧ (runCacheCalls ttl ((t0 :: times) ++ [tLate]) none).1 = 2 := by
  have hfirst : runCacheCalls ttl (t0 :: times) none = (1, some t0) := by
    rw [runCacheCalls]
    have hstep : cacheStep ttl t0 none = (true, some t0) := rfl
    rw [hstep]
    simp only []
    rw [runCacheCalls_within ttl t0 times hwin]
    simp
  constructor
  · rw [hfirst]
  · rw [runCacheCalls_append, hfirst]
    simp only []
    have hstep2 : cacheStep ttl tLate (some t0) = (true, some tLate) := by
      rw [cacheStep, if_pos hlate]
    rw [runCacheCalls, hstep2]
    simp [runCacheCalls]

theorem claim_C3_witness :
    (∀ t ∈ [3, 7, 10], t - 0 ≤ 10) ∧ 10 < 11 - 0
    ∧ ((runCacheCalls 10 (0 :: [3, 7, 10]) none).1 = 1
      ∧ (runCacheCalls 10 ((0 :: [3, 7, 10]) ++ [11]) none).1 = 2) :=
  ⟨by decide, by decide, claim_C3 10 0 11 [3, 7, 10] (by decide) (by decide)⟩

end KustoVerify
